import Mathlib

/-!
# Verification of the Stroop-test core logic (`stroopy.py`)

Shallow embedding of the trial-generation and scoring logic of the
Stroop color-word test application.  Randomness (`random.choice`,
`random.shuffle`) is modelled by explicit draw parameters and
permutation hypotheses; Python floats are modelled by `ℚ`; pandas'
NaN result for a mean over an all-NaN column is modelled by `Option.none`
(an "undefined" mean); `None` values are modelled by `Option.none`.
Wall-clock timestamp fields (`timestamp_onset`, `timestamp_response`)
are omitted: they record real time and no scoring logic reads them.
-/

namespace Stroopy

/-- `COLOR_NAMES = ["RED", "GREEN", "BLUE", "YELLOW"]` (config constant). -/
def COLOR_NAMES : List String := ["RED", "GREEN", "BLUE", "YELLOW"]

/-- `MAX_RT = 3.0` seconds (timeout cutoff, config constant). -/
def MAX_RT : ℚ := 3

/-- `MIN_VALID_RT = 0.10` seconds (anticipatory-response threshold). -/
def MIN_VALID_RT : ℚ := 1/10

/-- `random.choice(l)` modelled by an arbitrary draw `d`: the element at
index `d % len(l)`.  Quantifying over all `d` covers every possible
outcome of the uniform choice.  (Python raises on an empty list; the
default `""` is never reached on the lists the program uses.) -/
def pyChoice (l : List String) (d : ℕ) : String :=
  l.getD (d % l.length) ""

/-- A Trial, as built by `make_trial`: `{"word": word, "ink": ink,
"congruent": congruent}`. -/
structure Trial where
  word : String
  ink : String
  congruent : Bool
deriving Repr, DecidableEq, Inhabited

/-- `make_trial(congruent)` (stroopy.py lines 29-35), with the two
`random.choice` draws made explicit: the word is drawn from
`COLOR_NAMES`; a congruent trial reuses it as ink, an incongruent trial
draws the ink from the colors different from the word. -/
def make_trial (congruent : Bool) (wd ikd : ℕ) : Trial :=
  let word := pyChoice COLOR_NAMES wd
  let ink := if congruent then word
             else pyChoice (COLOR_NAMES.filter (fun c => c != word)) ikd
  { word := word, ink := ink, congruent := congruent }

/-- Python 3 `round` on a real value: round-half-to-even (banker's
rounding), returning an integer. -/
def pyRound (q : ℚ) : ℤ :=
  if q - ⌊q⌋ < 1/2 then ⌊q⌋
  else if 1/2 < q - ⌊q⌋ then ⌊q⌋ + 1
  else if ⌊q⌋ % 2 = 0 then ⌊q⌋ else ⌊q⌋ + 1

/-- `make_block(n, cong_prop)` (stroopy.py lines 37-42) up to the final
`random.shuffle`: `n_cong = int(round(n * cong_prop))`,
`n_incong = n - n_cong` (with Python's `range` empty on a negative
argument, hence the `Int.toNat` truncations), then the congruent block
followed by the incongruent block.  Theorems quantify over every
permutation of this list to model the shuffle.  `wd i`/`ikd i` are the
random draws used by the `i`-th `make_trial` call. -/
def make_block (n : ℕ) (p : ℚ) (wd ikd : ℕ → ℕ) : List Trial :=
  let nCong : ℤ := pyRound (n * p)
  let congTrials := (List.range nCong.toNat).map (fun i => make_trial true (wd i) (ikd i))
  let incongTrials := (List.range ((n : ℤ) - nCong).toNat).map
    (fun i => make_trial false (wd (nCong.toNat + i)) (ikd (nCong.toNat + i)))
  congTrials ++ incongTrials

lemma pyChoice_mem {l : List String} (hl : l ≠ []) (d : ℕ) : pyChoice l d ∈ l := by
  unfold pyChoice
  have hpos : 0 < l.length := List.length_pos.mpr hl
  have hlt : d % l.length < l.length := Nat.mod_lt _ hpos
  rw [List.getD_eq_getElem?_getD, List.getElem?_eq_getElem hlt]
  exact List.getElem_mem _

lemma make_trial_word_mem (c : Bool) (wd ikd : ℕ) :
    (make_trial c wd ikd).word ∈ COLOR_NAMES := by
  unfold make_trial
  exact pyChoice_mem (by decide) wd

lemma filter_ne_nonempty (w : String) :
    COLOR_NAMES.filter (fun c => c != w) ≠ [] := by
  intro hemp
  have h1 : ∀ s ∈ COLOR_NAMES, ¬ (s != w) = true := by
    rw [← List.filter_eq_nil_iff]
    exact hemp
  have hR := h1 "RED" (by decide)
  have hG := h1 "GREEN" (by decide)
  simp only [bne_iff_ne, ne_eq, not_not] at hR hG
  rw [← hG] at hR
  exact absurd hR (by decide)

lemma make_trial_ink_mem (c : Bool) (wd ikd : ℕ) :
    (make_trial c wd ikd).ink ∈ COLOR_NAMES := by
  unfold make_trial
  dsimp only
  rcases c with _ | _
  · simp only [if_neg Bool.false_ne_true]
    have := pyChoice_mem (filter_ne_nonempty (pyChoice COLOR_NAMES wd)) ikd
    exact List.mem_of_mem_filter this
  · simp only [if_pos rfl]
    exact pyChoice_mem (by decide) wd

lemma make_trial_incongruent_ne (wd ikd : ℕ) :
    (make_trial false wd ikd).word ≠ (make_trial false wd ikd).ink := by
  unfold make_trial
  dsimp only
  rw [if_neg Bool.false_ne_true]
  have hmem := pyChoice_mem (filter_ne_nonempty (pyChoice COLOR_NAMES wd)) ikd
  have := List.of_mem_filter hmem
  simp only [bne_iff_ne, ne_eq] at this
  exact fun h => this h.symm

end Stroopy

namespace Stroopy

/-- C2: every generated trial satisfies `congruent == (word == ink)`:
a congruent trial has `word = ink` and an incongruent trial has
`word ≠ ink`, for every pair of random draws `wd`, `ikd`. -/
theorem make_trial_invariant (c : Bool) (wd ikd : ℕ) :
    (make_trial c wd ikd).congruent
      = ((make_trial c wd ikd).word == (make_trial c wd ikd).ink) := by
  rcases c with _ | _
  · have hne := make_trial_incongruent_ne wd ikd
    have hc : (make_trial false wd ikd).congruent = false := rfl
    have hb : ((make_trial false wd ikd).word == (make_trial false wd ikd).ink) = false :=
      beq_eq_false_iff_ne.mpr hne
    rw [hc, hb]
  · have hc : (make_trial true wd ikd).congruent = true := rfl
    have heq : (make_trial true wd ikd).word = (make_trial true wd ikd).ink := by
      unfold make_trial
      simp
    rw [hc, heq, beq_self_eq_true]

lemma make_trial_congruent (c : Bool) (wd ikd : ℕ) :
    (make_trial c wd ikd).congruent = c := rfl

lemma pyRound_cases (q : ℚ) : pyRound q = ⌊q⌋ ∨ pyRound q = ⌊q⌋ + 1 := by
  unfold pyRound
  split_ifs <;> simp

lemma pyRound_nonneg {q : ℚ} (h : 0 ≤ q) : 0 ≤ pyRound q := by
  have hf : 0 ≤ ⌊q⌋ := Int.floor_nonneg.mpr h
  rcases pyRound_cases q with h' | h' <;> omega

lemma pyRound_le_natCast {q : ℚ} {n : ℕ} (h : q ≤ n) : pyRound q ≤ n := by
  have hf : ⌊q⌋ ≤ (n : ℤ) := by
    calc ⌊q⌋ ≤ ⌊(n : ℚ)⌋ := Int.floor_le_floor h
    _ = n := Int.floor_natCast n
  unfold pyRound
  split_ifs with h1 h2 h3
  · exact hf
  · have hlt : (⌊q⌋ : ℚ) < q := by
      have := Int.floor_le q
      linarith
    have : (⌊q⌋ : ℚ) < (n : ℚ) := lt_of_lt_of_le hlt h
    have : ⌊q⌋ < (n : ℤ) := by exact_mod_cast this
    omega
  · exact hf
  · have hlt : (⌊q⌋ : ℚ) < q := by linarith
    have : (⌊q⌋ : ℚ) < (n : ℚ) := lt_of_lt_of_le hlt h
    have : ⌊q⌋ < (n : ℤ) := by exact_mod_cast this
    omega

lemma countP_map_const_true {α β : Type} (f : α → β) (p : β → Bool)
    (h : ∀ a, p (f a) = true) (l : List α) : (l.map f).countP p = l.length := by
  rw [List.countP_map]
  exact List.countP_eq_length.mpr (fun a _ => h a)

lemma countP_map_const_false {α β : Type} (f : α → β) (p : β → Bool)
    (h : ∀ a, p (f a) = false) (l : List α) : (l.map f).countP p = 0 := by
  rw [List.countP_map]
  exact List.countP_eq_zero.mpr (fun a _ => by simp [Function.comp_apply, h a])

/-- C1: for every `total`, `congruent_fraction` (a fraction, between 0
and 1) and every outcome of the random draws and of the final shuffle
(any permutation `out` of the unshuffled block), the generated sequence
has length `total`, exactly `round(total * congruent_fraction)`
congruent trials and `total` minus that many incongruent trials. -/
theorem make_block_counts (n : ℕ) (p : ℚ) (h0 : 0 ≤ p) (h1 : p ≤ 1)
    (wd ikd : ℕ → ℕ) (out : List Trial)
    (hperm : out.Perm (make_block n p wd ikd)) :
    out.length = n ∧
    out.countP (fun t => t.congruent) = (pyRound (n * p)).toNat ∧
    out.countP (fun t => !t.congruent) = n - (pyRound (n * p)).toNat := by
  have hq0 : (0 : ℚ) ≤ (n : ℚ) * p := mul_nonneg (by positivity) h0
  have hqn : (n : ℚ) * p ≤ (n : ℚ) := by
    calc (n : ℚ) * p ≤ (n : ℚ) * 1 := by
          exact mul_le_mul_of_nonneg_left h1 (by positivity)
    _ = (n : ℚ) := mul_one _
  have hr0 : 0 ≤ pyRound ((n : ℚ) * p) := pyRound_nonneg hq0
  have hrn : pyRound ((n : ℚ) * p) ≤ (n : ℤ) := pyRound_le_natCast hqn
  have hlen : (make_block n p wd ikd).length = n := by
    simp only [make_block, List.length_append, List.length_map, List.length_range]
    omega
  have hcount : (make_block n p wd ikd).countP (fun t => t.congruent)
      = (pyRound ((n : ℚ) * p)).toNat := by
    unfold make_block
    rw [List.countP_append,
      countP_map_const_true _ _ (fun a => rfl),
      countP_map_const_false _ _ (fun a => rfl),
      List.length_range, Nat.add_zero]
  have hcount' : (make_block n p wd ikd).countP (fun t => !t.congruent)
      = n - (pyRound ((n : ℚ) * p)).toNat := by
    unfold make_block
    rw [List.countP_append,
      countP_map_const_false _ _ (fun a => rfl),
      countP_map_const_true _ _ (fun a => rfl),
      List.length_range, Nat.zero_add]
    omega
  refine ⟨?_, ?_, ?_⟩
  · rw [hperm.length_eq, hlen]
  · rw [hperm.countP_eq, hcount]
  · rw [hperm.countP_eq, hcount']

/-- Witness for C1 at the spec's example: `generate(20, 0.5)` (with the
identity-zero draws and the identity shuffle) yields 20 trials, 10
congruent and 10 incongruent. -/
theorem make_block_counts_example :
    (make_block 20 (1/2) (fun _ => 0) (fun _ => 0)).length = 20 ∧
    (make_block 20 (1/2) (fun _ => 0) (fun _ => 0)).countP (fun t => t.congruent) = 10 ∧
    (make_block 20 (1/2) (fun _ => 0) (fun _ => 0)).countP (fun t => !t.congruent) = 10 := by
  obtain ⟨hl, hc, hi⟩ := make_block_counts 20 (1/2) (by norm_num) (by norm_num)
    (fun _ => 0) (fun _ => 0) _ (List.Perm.refl _)
  have hr : pyRound ((20 : ℕ) * (1/2 : ℚ)) = 10 := by
    have hq : ((20 : ℕ) : ℚ) * (1/2 : ℚ) = 10 := by norm_num
    rw [hq]
    unfold pyRound
    norm_num
  rw [hr] at hc hi
  exact ⟨hl, hc, hi⟩

/-- A ResponseRecord, as built by `record_response` (stroopy.py lines
52-66).  The two wall-clock timestamp fields are omitted (real time, not
read by any logic).  `correct` is the Python `int` 0/1, modelled as
`Bool`; `response_key` is the one-letter response string, modelled as a
`Char`. -/
structure RRec where
  trial_index : ℕ
  word_text : String
  ink_color : String
  congruent : Bool
  response_key : Option Char
  correct : Bool
  rt_s : Option ℚ
  practice : Bool
deriving Repr, DecidableEq, Inhabited

/-- `color[0]`: the first letter of a color name, as passed by the
button handlers to `record_response`. -/
def firstLetter (s : String) : Char := s.toList.headD ' '

/-- Line 53: `correct = (response_key is not None and
response_key.upper() == trial["ink"][0])` — the uppercased response key
compared with the FIRST character of the ink color name.  (`ink[0]` on
an empty string would raise in Python; modelled via `head?`, never
reached on the palette.) -/
def scoreCorrect (response_key : Option Char) (ink : String) : Bool :=
  match response_key with
  | none => false
  | some k => some k.toUpper == ink.toList.head?

/-- The record dict built by `record_response` (lines 54-65):
`trial_index = len(results) + 1`; `response_key.upper() if response_key
else None`; `int(correct) if response_key else 0`; `rt_s = rt if
response_key else None`. -/
def mkRecord (n_results : ℕ) (trial : Trial) (response_key : Option Char)
    (rt : Option ℚ) (practice : Bool) : RRec :=
  { trial_index := n_results + 1
    word_text := trial.word
    ink_color := trial.ink
    congruent := trial.congruent
    response_key := response_key.map Char.toUpper
    correct := if response_key.isSome then scoreCorrect response_key trial.ink else false
    rt_s := if response_key.isSome then rt else none
    practice := practice }

/-- `record_response(results, trial, response_key, rt, practice)`
appends the new record to `results` (line 66). -/
def record_response (results : List RRec) (trial : Trial) (response_key : Option Char)
    (rt : Option ℚ) (practice : Bool) : List RRec :=
  results ++ [mkRecord results.length trial response_key rt practice]

lemma scoreCorrect_firstLetter_eq (c i : String)
    (hc : c ∈ COLOR_NAMES) (hi : i ∈ COLOR_NAMES) :
    scoreCorrect (some (firstLetter c)) i = (c == i) := by
  fin_cases hc <;> fin_cases hi <;> decide

/-- C3: a recorded response is scored correct exactly when a choice is
present and it names the trial's ink color, for any trial over the
configured palette; the record is appended to the results list. -/
theorem record_response_correct_iff (results : List RRec) (trial : Trial)
    (chosen : Option String) (rt : Option ℚ) (practice : Bool)
    (hink : trial.ink ∈ COLOR_NAMES)
    (hch : ∀ s, chosen = some s → s ∈ COLOR_NAMES) :
    record_response results trial (chosen.map firstLetter) rt practice
      = results ++ [mkRecord results.length trial (chosen.map firstLetter) rt practice]
    ∧ ((mkRecord results.length trial (chosen.map firstLetter) rt practice).correct = true
        ↔ chosen = some trial.ink) := by
  refine ⟨rfl, ?_⟩
  rcases chosen with _ | s
  · simp [mkRecord]
  · have hs := hch s rfl
    have hcor : (mkRecord results.length trial (some (firstLetter s)) rt practice).correct
        = scoreCorrect (some (firstLetter s)) trial.ink := rfl
    simp only [Option.map_some']
    rw [hcor, scoreCorrect_firstLetter_eq s trial.ink hs hink]
    simp [beq_iff_eq]

/-- Witness for C3 at the spec's example: trial `(word RED, ink BLUE)`
with chosen `BLUE` (reaction time 0.8 s) is scored correct. -/
theorem record_response_correct_iff_witness :
    (mkRecord 0 ⟨"RED", "BLUE", false⟩ ((some "BLUE").map firstLetter) (some (4/5)) false).correct
      = true := by
  have h := (record_response_correct_iff [] ⟨"RED", "BLUE", false⟩ (some "BLUE")
    (some (4/5)) false (by decide) (fun s hs => by cases hs; decide)).2
  exact h.mpr rfl

/-- Modelled from the spec: spec-level correctness compares the chosen
color name with the ink color name in full
(`correct = chosen is not None and chosen == trial.ink`). -/
def correct_spec (chosen ink : String) : Bool := chosen == ink

/-- C10: the code decides correctness by comparing the uppercased first
letter of the chosen response with the first letter of the ink color;
on the configured palette (whose initials R, G, B, Y are pairwise
distinct) this coincides with full color-name equality, for every
chosen palette color and every palette ink. -/
theorem scoreCorrect_refines_correct_spec (c i : String)
    (hc : c ∈ COLOR_NAMES) (hi : i ∈ COLOR_NAMES) :
    scoreCorrect (some (firstLetter c)) i = correct_spec c i :=
  scoreCorrect_firstLetter_eq c i hc hi

/-- Witness for C10 at two concrete inputs: an equal pair and a
distinct pair from the palette. -/
theorem scoreCorrect_refines_correct_spec_witness :
    scoreCorrect (some (firstLetter "RED")) "BLUE" = correct_spec "RED" "BLUE"
    ∧ scoreCorrect (some (firstLetter "BLUE")) "BLUE" = correct_spec "BLUE" "BLUE" :=
  ⟨scoreCorrect_refines_correct_spec "RED" "BLUE" (by decide) (by decide),
   scoreCorrect_refines_correct_spec "BLUE" "BLUE" (by decide) (by decide)⟩

/-- The reaction-time clamping of the test-stage button handler
(stroopy.py lines 178-183): a sub-threshold rt is kept as-is ("too
fast: treat as anticipatory but still record"), an rt within the
deadline is kept, an rt beyond `MAX_RT` is replaced by `None`. -/
def clamp_rt (rt : ℚ) : Option ℚ :=
  if rt < MIN_VALID_RT then some rt
  else if rt ≤ MAX_RT then some rt else none

/-- Counterexample to C4: a response clicked 5 s after stimulus onset
(past the 3 s deadline) on trial `(word RED, ink BLUE)` with key `B`
produces a record with `rt_s = None` — which the claim calls a timeout
— yet `response_key = some B ≠ None` and `correct = true`. -/
theorem late_response_contradicts_timeout_claim :
    clamp_rt 5 = none
    ∧ (mkRecord 0 ⟨"RED", "BLUE", false⟩ (some 'B') (clamp_rt 5) false).rt_s = none
    ∧ (mkRecord 0 ⟨"RED", "BLUE", false⟩ (some 'B') (clamp_rt 5) false).response_key = some 'B'
    ∧ (mkRecord 0 ⟨"RED", "BLUE", false⟩ (some 'B') (clamp_rt 5) false).correct = true := by
  have hc : clamp_rt 5 = none := by
    rw [clamp_rt, if_neg (by norm_num [MIN_VALID_RT]), if_neg (by norm_num [MAX_RT])]
  refine ⟨hc, ?_, by decide, by decide⟩
  simp [mkRecord, hc]

/-- C4 (amended): a record created with no choice (`chosen = None`) has
`correct = false`, `response_key = None` and `rt_s = None`; a response
arriving after the deadline is recorded with `rt_s = None` but RETAINS
its (uppercased) chosen key and is scored by ink match like any other
response — it is not forced incorrect. -/
theorem no_choice_scored_incorrect (results : List RRec) (trial : Trial)
    (rt : Option ℚ) (p : Bool) (rt' : ℚ) (k : Char) (hlate : MAX_RT < rt') :
    ((mkRecord results.length trial none rt p).correct = false
      ∧ (mkRecord results.length trial none rt p).response_key = none
      ∧ (mkRecord results.length trial none rt p).rt_s = none)
    ∧ (clamp_rt rt' = none
      ∧ (mkRecord results.length trial (some k) (clamp_rt rt') p).rt_s = none
      ∧ (mkRecord results.length trial (some k) (clamp_rt rt') p).response_key = some k.toUpper
      ∧ (mkRecord results.length trial (some k) (clamp_rt rt') p).correct
          = scoreCorrect (some k) trial.ink) := by
  have h1 : ¬ (rt' < MIN_VALID_RT) := by
    rw [MIN_VALID_RT]
    rw [MAX_RT] at hlate
    intro h
    linarith
  have h2 : ¬ (rt' ≤ MAX_RT) := not_le.mpr hlate
  have hc : clamp_rt rt' = none := by rw [clamp_rt, if_neg h1, if_neg h2]
  refine ⟨⟨rfl, rfl, rfl⟩, hc, ?_, rfl, rfl⟩
  simp [mkRecord, hc]

/-- Witness for C4's amended statement at a concrete late response
(5 s > 3 s deadline, key `B`, trial `(RED, BLUE)`). -/
theorem no_choice_scored_incorrect_witness :
    ((mkRecord 0 ⟨"RED", "BLUE", false⟩ none none true).correct = false
      ∧ (mkRecord 0 ⟨"RED", "BLUE", false⟩ none none true).response_key = none
      ∧ (mkRecord 0 ⟨"RED", "BLUE", false⟩ none none true).rt_s = none)
    ∧ (clamp_rt 5 = none
      ∧ (mkRecord 0 ⟨"RED", "BLUE", false⟩ (some 'B') (clamp_rt 5) true).rt_s = none
      ∧ (mkRecord 0 ⟨"RED", "BLUE", false⟩ (some 'B') (clamp_rt 5) true).response_key
          = some 'B'.toUpper
      ∧ (mkRecord 0 ⟨"RED", "BLUE", false⟩ (some 'B') (clamp_rt 5) true).correct
          = scoreCorrect (some 'B') "BLUE") :=
  no_choice_scored_incorrect ([] : List RRec) ⟨"RED", "BLUE", false⟩ none true 5 'B'
    (by rw [MAX_RT]; norm_num)

/-- The interaction stages (`st.session_state.stage`). -/
inductive Stage
  | instructions
  | practice
  | test
  | finished
deriving Repr, DecidableEq

/-- One rerun of the test stage (stroopy.py lines 149-189): if the
trial sequence is exhausted the stage becomes `finished`; otherwise, if
a color button was clicked, the response is recorded (key = first
letter of the color, rt clamped by `clamp_rt`) and the index advances;
with no click, nothing changes — there is no deadline-driven path.
(The optional keyboard-listener block requires an external package and
is not modelled; `elapsed` is `time.time() - start_time`.) -/
def test_step (trials : List Trial) (idx : ℕ) (results : List RRec)
    (clicked : Option String) (elapsed : ℚ) : Stage × ℕ × List RRec :=
  if trials.length ≤ idx then (Stage.finished, idx, results)
  else
    match clicked with
    | none => (Stage.test, idx, results)
    | some color =>
        (Stage.test, idx + 1,
          record_response results (trials.getD idx default)
            (some (firstLetter color)) (clamp_rt elapsed) false)

/-- C8 (code behavior at the failing input): in the test stage with one
remaining trial and no click, even 100 s after stimulus onset — far past
the 3 s deadline — the step leaves the state completely unchanged: the
index does not advance, no record is appended, the stage stays `test`.
The code has no deadline-driven advancement path. -/
theorem test_step_no_advance_without_input :
    test_step [⟨"RED", "BLUE", false⟩] 0 [] none 100 = (Stage.test, 0, []) := rfl

/-- `test_df` (line 256): the analysis is restricted to the records
with `practice == False`. -/
def test_data (rs : List RRec) : List RRec := rs.filter (fun r => !r.practice)

/-- The `rt_s_clean` column entry (line 258): the rt value when present
and `>= MIN_VALID_RT`, otherwise NaN, modelled as `none`. -/
def rt_clean (r : RRec) : Option ℚ :=
  match r.rt_s with
  | none => none
  | some t => if MIN_VALID_RT ≤ t then some t else none

/-- The non-NaN entries of the `rt_s_clean` column. -/
def clean_rts (rs : List RRec) : List ℚ := rs.filterMap rt_clean

/-- pandas `Series.mean()` over `rt_s_clean`: NaN entries are skipped;
the mean of zero non-NaN entries is NaN, modelled as `none`. -/
def mean_rts (rs : List RRec) : Option ℚ :=
  if clean_rts rs = [] then none
  else some ((clean_rts rs).sum / (clean_rts rs).length)

/-- `df["correct"].mean() * 100` over a record list: the fraction of
correct records (denominator = ALL records of the list) times 100. -/
def acc_pct (rs : List RRec) : ℚ :=
  ((rs.countP (fun r => r.correct) : ℚ) / (rs.length : ℚ)) * 100

/-- `cong_df = test_df[test_df["congruent"] == True]` (line 262). -/
def cong_of (rs : List RRec) : List RRec :=
  (test_data rs).filter (fun r => r.congruent)

/-- `incong_df = test_df[test_df["congruent"] == False]` (line 263). -/
def incong_of (rs : List RRec) : List RRec :=
  (test_data rs).filter (fun r => !r.congruent)

/-- `cong_rt = cong_df["rt_s_clean"].mean() if not cong_df.empty else
None` (line 264). -/
def cong_rt_of (rs : List RRec) : Option ℚ :=
  if cong_of rs = [] then none else mean_rts (cong_of rs)

/-- `incong_rt` (line 265). -/
def incong_rt_of (rs : List RRec) : Option ℚ :=
  if incong_of rs = [] then none else mean_rts (incong_of rs)

/-- `stroop_effect = incong_rt - cong_rt` when both condition means are
available, else `None` (lines 268-270; a NaN mean is likewise modelled
as unavailable). -/
def stroop_of (rs : List RRec) : Option ℚ :=
  match cong_rt_of rs, incong_rt_of rs with
  | some c, some i => some (i - c)
  | _, _ => none

/-- The aggregate metrics of the finished stage. -/
structure Summary where
  overall_acc : ℚ
  overall_rt : Option ℚ
  cong_rt : Option ℚ
  incong_rt : Option ℚ
  cong_acc : Option ℚ
  incong_acc : Option ℚ
  stroop_effect : Option ℚ
deriving Repr, DecidableEq

/-- The finished-stage analysis (stroopy.py lines 256-270): all metrics
are computed on `test_df`; empty groups yield `None` (`0` for the
overall accuracy), and a mean over a group with no valid reaction time
yields NaN, modelled as `none` — no division by zero ever occurs. -/
def summarize (results : List RRec) : Summary :=
  { overall_acc := if test_data results = [] then 0 else acc_pct (test_data results)
    overall_rt := if test_data results = [] then none else mean_rts (test_data results)
    cong_rt := cong_rt_of results
    incong_rt := incong_rt_of results
    cong_acc := if cong_of results = [] then none else some (acc_pct (cong_of results))
    incong_acc := if incong_of results = [] then none else some (acc_pct (incong_of results))
    stroop_effect := stroop_of results }

/-- The CSV download (line 287) serializes exactly the rows of
`test_df`. -/
def csv_records (rs : List RRec) : List RRec := test_data rs

lemma rt_clean_eq_some (r : RRec) (t : ℚ) :
    rt_clean r = some t ↔ r.rt_s = some t ∧ MIN_VALID_RT ≤ t := by
  cases hr : r.rt_s with
  | none => simp [rt_clean, hr]
  | some u =>
    by_cases hu : MIN_VALID_RT ≤ u
    · simp only [rt_clean, hr, if_pos hu, Option.some.injEq]
      constructor
      · rintro rfl
        exact ⟨rfl, hu⟩
      · exact fun h => h.1
    · simp only [rt_clean, hr, if_neg hu]
      constructor
      · intro h
        exact Option.noConfusion h
      · rintro ⟨h1, h2⟩
        obtain rfl : u = t := Option.some_inj.mp h1
        exact absurd h2 hu

lemma clean_rts_mem (rs : List RRec) (t : ℚ) :
    t ∈ clean_rts rs ↔ ∃ r ∈ rs, r.rt_s = some t ∧ MIN_VALID_RT ≤ t := by
  unfold clean_rts
  rw [List.mem_filterMap]
  constructor
  · rintro ⟨r, hr, hc⟩
    exact ⟨r, hr, (rt_clean_eq_some r t).mp hc⟩
  · rintro ⟨r, hr, h1, h2⟩
    exact ⟨r, hr, (rt_clean_eq_some r t).mpr ⟨h1, h2⟩⟩

lemma mean_rts_of_no_valid {rs : List RRec} (h : clean_rts rs = []) :
    mean_rts rs = none := by
  rw [mean_rts, if_pos h]

/-- C5: every reaction-time mean is a mean of the `rt_s_clean` column,
whose entries are exactly the reaction times that are present and at or
above `MIN_VALID_RT`; records with a null or sub-threshold reaction
time contribute nothing to the RT mean but still count in the accuracy
denominator (the full group size); and the test-stage handler retains a
sub-threshold reaction time in the record instead of discarding it. -/
theorem summarize_rt_mean_valid_only (rs : List RRec) (h : test_data rs ≠ []) :
    (summarize rs).overall_acc
      = ((test_data rs).countP (fun r => r.correct) : ℚ) / ((test_data rs).length : ℚ) * 100
    ∧ (summarize rs).overall_rt = mean_rts (test_data rs)
    ∧ (cong_of rs ≠ [] → (summarize rs).cong_rt = mean_rts (cong_of rs))
    ∧ (incong_of rs ≠ [] → (summarize rs).incong_rt = mean_rts (incong_of rs))
    ∧ (∀ (l : List RRec) (t : ℚ),
        t ∈ clean_rts l ↔ ∃ r ∈ l, r.rt_s = some t ∧ MIN_VALID_RT ≤ t)
    ∧ (∀ rt : ℚ, rt < MIN_VALID_RT → clamp_rt rt = some rt) := by
  refine ⟨?_, ?_, ?_, ?_, clean_rts_mem, ?_⟩
  · show (if test_data rs = [] then 0 else acc_pct (test_data rs)) = _
    rw [if_neg h, acc_pct]
  · show (if test_data rs = [] then none else mean_rts (test_data rs)) = _
    rw [if_neg h]
  · intro hc
    show cong_rt_of rs = _
    rw [cong_rt_of, if_neg hc]
  · intro hi
    show incong_rt_of rs = _
    rw [incong_rt_of, if_neg hi]
  · intro rt hrt
    rw [clamp_rt, if_pos hrt]

/-- Witness for C5: two test records, one with a sub-threshold reaction
time of 0.05 s (correct) and one with a valid 0.5 s (incorrect): the
mean reaction time is 0.5 (the anticipatory response is excluded) while
the accuracy is 50% (it is still in the denominator), and 0.05 is
retained by the handler's clamping. -/
theorem summarize_rt_mean_valid_only_witness :
    (summarize [⟨1, "RED", "RED", true, some 'R', true, some (1/20), false⟩,
                ⟨2, "RED", "BLUE", false, some 'R', false, some (1/2), false⟩]).overall_acc = 50
    ∧ (summarize [⟨1, "RED", "RED", true, some 'R', true, some (1/20), false⟩,
                  ⟨2, "RED", "BLUE", false, some 'R', false, some (1/2), false⟩]).overall_rt
        = some (1/2)
    ∧ clamp_rt (1/20) = some (1/20) := by
  obtain ⟨h1, h2, _, _, _, h6⟩ := summarize_rt_mean_valid_only
    [⟨1, "RED", "RED", true, some 'R', true, some (1/20), false⟩,
     ⟨2, "RED", "BLUE", false, some 'R', false, some (1/2), false⟩]
    (by simp [test_data])
  refine ⟨?_, ?_, h6 (1/20) (by rw [MIN_VALID_RT]; norm_num)⟩
  · rw [h1]
    norm_num [test_data]
  · rw [h2]
    have hcl : clean_rts (test_data
        [⟨1, "RED", "RED", true, some 'R', true, some (1/20), false⟩,
         ⟨2, "RED", "BLUE", false, some 'R', false, some (1/2), false⟩]) = [1/2] := by
      norm_num [clean_rts, rt_clean, test_data, MIN_VALID_RT, List.filterMap_cons]
    rw [mean_rts, hcl]
    norm_num

lemma rt_clean_of_rt_none {r : RRec} (h : r.rt_s = none) : rt_clean r = none := by
  simp [rt_clean, h]

/-- C6: a reaction-time mean over a subgroup that is empty or contains
no valid reaction times is undefined (`none`) — never zero, and no
division is ever performed on such a group; in particular `summarize`
on an all-timeout record set (every record produced by
`record_response` with no choice and no reaction time) yields overall
accuracy 0 and every RT mean (and the interference) undefined. -/
theorem summarize_empty_subgroup_undefined :
    (∀ rs : List RRec, clean_rts (test_data rs) = [] → (summarize rs).overall_rt = none)
    ∧ (∀ rs : List RRec, clean_rts (cong_of rs) = [] → (summarize rs).cong_rt = none)
    ∧ (∀ rs : List RRec, clean_rts (incong_of rs) = [] → (summarize rs).incong_rt = none)
    ∧ (∀ rs : List RRec,
        (∀ r ∈ rs, ∃ (i : ℕ) (trial : Trial) (p : Bool), r = mkRecord i trial none none p) →
        (summarize rs).overall_acc = 0 ∧ (summarize rs).overall_rt = none
          ∧ (summarize rs).cong_rt = none ∧ (summarize rs).incong_rt = none
          ∧ (summarize rs).stroop_effect = none) := by
  have p1 : ∀ rs : List RRec, clean_rts (test_data rs) = [] →
      (summarize rs).overall_rt = none := by
    intro rs h
    show (if test_data rs = [] then none else mean_rts (test_data rs)) = none
    by_cases ht : test_data rs = []
    · rw [if_pos ht]
    · rw [if_neg ht, mean_rts_of_no_valid h]
  have p2 : ∀ rs : List RRec, clean_rts (cong_of rs) = [] →
      (summarize rs).cong_rt = none := by
    intro rs h
    show cong_rt_of rs = none
    by_cases hc : cong_of rs = []
    · rw [cong_rt_of, if_pos hc]
    · rw [cong_rt_of, if_neg hc, mean_rts_of_no_valid h]
  have p3 : ∀ rs : List RRec, clean_rts (incong_of rs) = [] →
      (summarize rs).incong_rt = none := by
    intro rs h
    show incong_rt_of rs = none
    by_cases hc : incong_of rs = []
    · rw [incong_rt_of, if_pos hc]
    · rw [incong_rt_of, if_neg hc, mean_rts_of_no_valid h]
  refine ⟨p1, p2, p3, ?_⟩
  intro rs htm
  have hkey : ∀ r ∈ rs, r.correct = false ∧ r.rt_s = none := by
    intro r hr
    obtain ⟨i, trial, p, rfl⟩ := htm r hr
    exact ⟨rfl, rfl⟩
  have hnone : ∀ (l : List RRec), (∀ r ∈ l, r ∈ rs) → clean_rts l = [] := by
    intro l hsub
    rw [clean_rts, List.filterMap_eq_nil_iff]
    intro r hr
    exact rt_clean_of_rt_none (hkey r (hsub r hr)).2
  have hsub_t : ∀ r ∈ test_data rs, r ∈ rs := fun r hr => List.mem_of_mem_filter hr
  have hsub_c : ∀ r ∈ cong_of rs, r ∈ rs :=
    fun r hr => List.mem_of_mem_filter (List.mem_of_mem_filter hr)
  have hsub_i : ∀ r ∈ incong_of rs, r ∈ rs :=
    fun r hr => List.mem_of_mem_filter (List.mem_of_mem_filter hr)
  have hacc : (summarize rs).overall_acc = 0 := by
    show (if test_data rs = [] then 0 else acc_pct (test_data rs)) = 0
    by_cases ht : test_data rs = []
    · rw [if_pos ht]
    · rw [if_neg ht, acc_pct,
        List.countP_eq_zero.mpr (fun r hr => by simp [(hkey r (hsub_t r hr)).1])]
      simp
  have hcong : (summarize rs).cong_rt = none := p2 rs (hnone _ hsub_c)
  refine ⟨hacc, p1 rs (hnone _ hsub_t), hcong, p3 rs (hnone _ hsub_i), ?_⟩
  show stroop_of rs = none
  have hcong' : cong_rt_of rs = none := hcong
  rw [stroop_of, hcong']

/-- Witness for C6: a two-record all-timeout session (one congruent,
one incongruent trial, both with no choice) has overall accuracy 0 and
every reaction-time mean, as well as the interference, undefined. -/
theorem summarize_empty_subgroup_undefined_witness :
    (summarize [mkRecord 0 ⟨"RED", "RED", true⟩ none none false,
                mkRecord 1 ⟨"RED", "BLUE", false⟩ none none false]).overall_acc = 0
    ∧ (summarize [mkRecord 0 ⟨"RED", "RED", true⟩ none none false,
                  mkRecord 1 ⟨"RED", "BLUE", false⟩ none none false]).overall_rt = none
    ∧ (summarize [mkRecord 0 ⟨"RED", "RED", true⟩ none none false,
                  mkRecord 1 ⟨"RED", "BLUE", false⟩ none none false]).cong_rt = none
    ∧ (summarize [mkRecord 0 ⟨"RED", "RED", true⟩ none none false,
                  mkRecord 1 ⟨"RED", "BLUE", false⟩ none none false]).incong_rt = none
    ∧ (summarize [mkRecord 0 ⟨"RED", "RED", true⟩ none none false,
                  mkRecord 1 ⟨"RED", "BLUE", false⟩ none none false]).stroop_effect = none := by
  apply summarize_empty_subgroup_undefined.2.2.2
  intro r hr
  rcases List.mem_cons.mp hr with h | h
  · exact ⟨0, ⟨"RED", "RED", true⟩, false, h⟩
  · rcases List.mem_cons.mp h with h' | h'
    · exact ⟨1, ⟨"RED", "BLUE", false⟩, false, h'⟩
    · exact absurd h' (List.not_mem_nil r)

/-- C7: the Stroop interference equals the incongruent mean reaction
time minus the congruent mean reaction time, and it is defined exactly
when both condition means are defined. -/
theorem stroop_interference_def (rs : List RRec) :
    (∀ c i : ℚ, (summarize rs).cong_rt = some c → (summarize rs).incong_rt = some i →
        (summarize rs).stroop_effect = some (i - c))
    ∧ ((summarize rs).cong_rt = none ∨ (summarize rs).incong_rt = none →
        (summarize rs).stroop_effect = none) := by
  constructor
  · intro c i h1 h2
    have h1' : cong_rt_of rs = some c := h1
    have h2' : incong_rt_of rs = some i := h2
    show stroop_of rs = some (i - c)
    rw [stroop_of, h1', h2']
  · intro h
    show stroop_of rs = none
    rw [stroop_of]
    rcases h1 : cong_rt_of rs with _ | c <;> rcases h2 : incong_rt_of rs with _ | i <;>
      try rfl
    rcases h with h | h
    · have h' : cong_rt_of rs = none := h
      rw [h1] at h'
      exact Option.noConfusion h'
    · have h' : incong_rt_of rs = none := h
      rw [h2] at h'
      exact Option.noConfusion h'

/-- Witness for C7 at the spec's example: congruent reaction times 0.5
and 0.7 and incongruent reaction times 0.9 and 1.1 give a congruent
mean of 0.6, an incongruent mean of 1.0 and an interference of 0.4. -/
theorem stroop_interference_def_witness :
    (summarize [⟨1, "RED", "RED", true, some 'R', true, some (1/2), false⟩,
                ⟨2, "GREEN", "GREEN", true, some 'G', true, some (7/10), false⟩,
                ⟨3, "RED", "BLUE", false, some 'B', true, some (9/10), false⟩,
                ⟨4, "GREEN", "YELLOW", false, some 'Y', true, some (11/10), false⟩]).cong_rt
        = some (3/5)
    ∧ (summarize [⟨1, "RED", "RED", true, some 'R', true, some (1/2), false⟩,
                  ⟨2, "GREEN", "GREEN", true, some 'G', true, some (7/10), false⟩,
                  ⟨3, "RED", "BLUE", false, some 'B', true, some (9/10), false⟩,
                  ⟨4, "GREEN", "YELLOW", false, some 'Y', true, some (11/10), false⟩]).incong_rt
        = some 1
    ∧ (summarize [⟨1, "RED", "RED", true, some 'R', true, some (1/2), false⟩,
                  ⟨2, "GREEN", "GREEN", true, some 'G', true, some (7/10), false⟩,
                  ⟨3, "RED", "BLUE", false, some 'B', true, some (9/10), false⟩,
                  ⟨4, "GREEN", "YELLOW", false, some 'Y', true, some (11/10), false⟩]).stroop_effect
        = some (2/5) := by
  have h1 : (summarize [⟨1, "RED", "RED", true, some 'R', true, some (1/2), false⟩,
      ⟨2, "GREEN", "GREEN", true, some 'G', true, some (7/10), false⟩,
      ⟨3, "RED", "BLUE", false, some 'B', true, some (9/10), false⟩,
      ⟨4, "GREEN", "YELLOW", false, some 'Y', true, some (11/10), false⟩]).cong_rt
      = some (3/5) := by
    show cong_rt_of
      [⟨1, "RED", "RED", true, some 'R', true, some (1/2), false⟩,
       ⟨2, "GREEN", "GREEN", true, some 'G', true, some (7/10), false⟩,
       ⟨3, "RED", "BLUE", false, some 'B', true, some (9/10), false⟩,
       ⟨4, "GREEN", "YELLOW", false, some 'Y', true, some (11/10), false⟩] = some (3/5)
    rw [cong_rt_of, if_neg (by simp [cong_of, test_data])]
    have hcl : clean_rts (cong_of
        [⟨1, "RED", "RED", true, some 'R', true, some (1/2), false⟩,
         ⟨2, "GREEN", "GREEN", true, some 'G', true, some (7/10), false⟩,
         ⟨3, "RED", "BLUE", false, some 'B', true, some (9/10), false⟩,
         ⟨4, "GREEN", "YELLOW", false, some 'Y', true, some (11/10), false⟩])
        = [1/2, 7/10] := by
      norm_num [clean_rts, rt_clean, cong_of, test_data, MIN_VALID_RT, List.filterMap_cons]
    rw [mean_rts, hcl, if_neg (by simp)]
    norm_num [List.sum_cons, List.sum_nil]
  have h2 : (summarize [⟨1, "RED", "RED", true, some 'R', true, some (1/2), false⟩,
      ⟨2, "GREEN", "GREEN", true, some 'G', true, some (7/10), false⟩,
      ⟨3, "RED", "BLUE", false, some 'B', true, some (9/10), false⟩,
      ⟨4, "GREEN", "YELLOW", false, some 'Y', true, some (11/10), false⟩]).incong_rt
      = some 1 := by
    show incong_rt_of
      [⟨1, "RED", "RED", true, some 'R', true, some (1/2), false⟩,
       ⟨2, "GREEN", "GREEN", true, some 'G', true, some (7/10), false⟩,
       ⟨3, "RED", "BLUE", false, some 'B', true, some (9/10), false⟩,
       ⟨4, "GREEN", "YELLOW", false, some 'Y', true, some (11/10), false⟩] = some 1
    rw [incong_rt_of, if_neg (by simp [incong_of, test_data])]
    have hcl : clean_rts (incong_of
        [⟨1, "RED", "RED", true, some 'R', true, some (1/2), false⟩,
         ⟨2, "GREEN", "GREEN", true, some 'G', true, some (7/10), false⟩,
         ⟨3, "RED", "BLUE", false, some 'B', true, some (9/10), false⟩,
         ⟨4, "GREEN", "YELLOW", false, some 'Y', true, some (11/10), false⟩])
        = [9/10, 11/10] := by
      norm_num [clean_rts, rt_clean, incong_of, test_data, MIN_VALID_RT, List.filterMap_cons]
    rw [mean_rts, hcl, if_neg (by simp)]
    norm_num [List.sum_cons, List.sum_nil]
  have h3 := (stroop_interference_def
    [⟨1, "RED", "RED", true, some 'R', true, some (1/2), false⟩,
     ⟨2, "GREEN", "GREEN", true, some 'G', true, some (7/10), false⟩,
     ⟨3, "RED", "BLUE", false, some 'B', true, some (9/10), false⟩,
     ⟨4, "GREEN", "YELLOW", false, some 'Y', true, some (11/10), false⟩]).1 (3/5) 1 h1 h2
  refine ⟨h1, h2, ?_⟩
  rw [h3]
  norm_num

lemma test_data_idem (rs : List RRec) : test_data (test_data rs) = test_data rs := by
  rw [test_data, test_data, List.filter_filter]
  simp only [Bool.and_self]

/-- C9: the end-of-session statistics and the CSV export are computed
over test-phase records only: the summary of a record list equals the
summary of its non-practice records alone, and the exported rows are
exactly the records whose practice flag is not set. -/
theorem analysis_on_test_records_only (rs : List RRec) :
    summarize rs = summarize (test_data rs)
    ∧ (∀ r : RRec, r ∈ csv_records rs ↔ r ∈ rs ∧ r.practice = false) := by
  constructor
  · have hid := test_data_idem rs
    have hc : cong_of (test_data rs) = cong_of rs := by
      rw [cong_of, cong_of, hid]
    have hi : incong_of (test_data rs) = incong_of rs := by
      rw [incong_of, incong_of, hid]
    have hcr : cong_rt_of (test_data rs) = cong_rt_of rs := by
      rw [cong_rt_of, cong_rt_of, hc]
    have hicr : incong_rt_of (test_data rs) = incong_rt_of rs := by
      rw [incong_rt_of, incong_rt_of, hi]
    have hst : stroop_of (test_data rs) = stroop_of rs := by
      rw [stroop_of, stroop_of, hcr, hicr]
    simp only [summarize, hid, hc, hi, hcr, hicr, hst]
  · intro r
    rw [csv_records, test_data, List.mem_filter]
    simp

/-- Witness for C9: with one practice record and one test record, the
summary ignores the practice record and only the test record is
exported. -/
theorem analysis_on_test_records_only_witness :
    summarize [⟨1, "RED", "RED", true, some 'R', true, some (1/2), true⟩,
               ⟨2, "RED", "BLUE", false, some 'B', true, some (3/5), false⟩]
      = summarize (test_data
          [⟨1, "RED", "RED", true, some 'R', true, some (1/2), true⟩,
           ⟨2, "RED", "BLUE", false, some 'B', true, some (3/5), false⟩])
    ∧ ((⟨2, "RED", "BLUE", false, some 'B', true, some (3/5), false⟩ : RRec)
        ∈ csv_records [⟨1, "RED", "RED", true, some 'R', true, some (1/2), true⟩,
                       ⟨2, "RED", "BLUE", false, some 'B', true, some (3/5), false⟩]
      ↔ (⟨2, "RED", "BLUE", false, some 'B', true, some (3/5), false⟩ : RRec)
          ∈ [(⟨1, "RED", "RED", true, some 'R', true, some (1/2), true⟩ : RRec),
             ⟨2, "RED", "BLUE", false, some 'B', true, some (3/5), false⟩]
        ∧ (⟨2, "RED", "BLUE", false, some 'B', true, some (3/5), false⟩ : RRec).practice
            = false) :=
  ⟨(analysis_on_test_records_only
      [⟨1, "RED", "RED", true, some 'R', true, some (1/2), true⟩,
       ⟨2, "RED", "BLUE", false, some 'B', true, some (3/5), false⟩]).1,
   (analysis_on_test_records_only
      [⟨1, "RED", "RED", true, some 'R', true, some (1/2), true⟩,
       ⟨2, "RED", "BLUE", false, some 'B', true, some (3/5), false⟩]).2
     ⟨2, "RED", "BLUE", false, some 'B', true, some (3/5), false⟩⟩

end Stroopy
